import Mathlib

/-!
Verification model of the Sparkling recursive-descent parser (`src/parser.c`).

The parser functions are translated from `src/parser.c` one by one.  The
lexer (`spn_lex`, `spn_accept`, `spn_accept_multi`) is not part of the
sources at hand, so it is modelled from the specification: the source text
is abstracted as a list of tokens (each carrying its kind, its payload
value and the 1-based line of its first character), `spn_lex` pops the next
token into the one-token lookahead buffer and advances the line counter
with the new token, and at end of input it sets the `eof` flag and leaves
the EOF token class in the buffer.  Memory management of the C original
(`spn_ast_free`, `spn_value_release`, `spn_object_release`) is a no-op in
this value-level model.  Error messages keep the C wording except that the
quoting punctuation around terminals is dropped, and the numeric token id
of the "unexpected token %d" message is not rendered.

All parser functions take an explicit fuel argument and are gathered in a
single structurally recursive interpreter `run` over a request type `Req`
(one request constructor per C function / loop); the named wrappers
`parse_program`, `parse_stmt`, ... restore the source naming.  Fuel
exhaustion yields the failure result `(none, p)`, which is unreachable for
the concrete inputs evaluated below.
-/

namespace Sparkling

/-- Token kinds, following `enum spn_lex_token`; the spec's token classes
include an explicit EOF class. -/
inductive Tok where
  | tIf | tElse | tWhile | tDo | tFor | tForeach | tBreak | tContinue | tReturn
  | tFunction | tVar | tAs | tIn | tTrue | tFalse | tNil | tNan
  | tSizeof | tTypeof
  | semicolon | comma | colon | qmark
  | lbrace | rbrace | lparen | rparen | lbracket | rbracket
  | dot | arrow
  | assign | pluseq | minuseq | muleq | diveq | modeq
  | andeq | oreq | xoreq | shleq | shreq | dotdoteq
  | dotdot | logor | logand | lognot
  | bitor | bitand | bitxor | bitnot
  | equal | noteq | less | greater | leq | geq
  | shl | shr | plus | minus | mul | div | mod
  | incr | decr | hash
  | ident | intLit | floatLit | strLit
  | eofTok
deriving DecidableEq, Repr

/-- AST node kinds, following `enum spn_ast_node`. -/
inductive NodeKind where
  | program | block | compound | empty
  | nIf | nWhile | nDo | nFor | nForeach | forheader
  | nBreak | nContinue | nReturn
  | vardecl | funcstmt | funcexpr | declargs | callargs
  | assign | assignAdd | assignSub | assignMul | assignDiv | assignMod
  | assignAnd | assignOr | assignXor | assignShl | assignShr | assignConcat
  | concat | condexpr | branches
  | logor | logand | bitor | bitxor | bitand
  | equal | noteq | less | greater | leq | geq
  | shl | shr | add | sub | mul | div | mod
  | preincrmt | predecrmt | unplus | unminus | lognot | bitnot
  | nSizeof | nTypeof | ntharg
  | postincrmt | postdecrmt | arrsub | funccall | memberof
  | ident | literal
deriving DecidableEq, Repr

/-- Payload values carried by tokens and by `Literal` AST nodes (`SpnValue`).
Float payloads are not interpreted by the parser (they are copied verbatim
into literal nodes), so they are kept opaque; `vFloatNan` stands for the
quiet NaN produced for the `nan` keyword. -/
inductive Val where
  | vNone
  | vStr (s : String)
  | vInt (n : Int)
  | vFloat (rep : Nat)
  | vFloatNan
  | vBool (b : Bool)
  | vNil
deriving DecidableEq, Repr

/-- The string payload of an identifier or string token. -/
def Val.asStr : Val → Option String
  | .vStr s => some s
  | _ => none

/-- A lexed token: kind, payload value, and the 1-based source line at the
token's first character. -/
structure Token where
  tok : Tok
  val : Val
  line : Nat
deriving DecidableEq, Repr

/-- Parser state (`SpnParser`): the unread remainder of the token stream
(standing for the `pos` cursor), the one-token lookahead buffer `curtok`,
the line counter, the `eof` and `error` flags, and the retained error
message buffer. -/
structure SpnParser where
  rest : List Token
  curtok : Token
  lineno : Nat
  eof : Bool
  error : Bool
  errmsg : Option String
deriving DecidableEq, Repr

/-- Fresh parser object, as `spn_parser_new` initializes it (the lookahead
buffer starts out unread; it is represented by an EOF token). -/
def spn_parser_new : SpnParser :=
  { rest := [], curtok := ⟨.eofTok, .vNone, 1⟩, lineno := 1,
    eof := false, error := false, errmsg := none }

/-- Translation of `spn_parser_error`: sets the error flag and stores the
formatted message (also printed to stderr in C) in `errmsg`. -/
def spn_parser_error (p : SpnParser) (msg : String) : SpnParser :=
  { p with error := true,
           errmsg := some ("Sparkling: syntax error near line "
                           ++ toString p.lineno ++ ": " ++ msg) }

/-- Modelled from the spec: the lexer's `advance` (`spn_lex`), which is not
among the sources.  It reads the next token into the lookahead buffer and
advances the line counter with the new token, returning `true`; at end of
input it sets the `eof` flag, leaves the EOF token class in the buffer and
returns `false`.  (Lexical errors cannot arise at this token-level
abstraction.) -/
def spn_lex (p : SpnParser) : Bool × SpnParser :=
  match p.rest with
  | [] => (false, { p with eof := true, curtok := ⟨.eofTok, .vNone, p.lineno⟩ })
  | t :: ts => (true, { p with curtok := t, rest := ts, lineno := t.line })

/-- Modelled from the spec: the lexer's `accept` (`spn_accept`), not among
the sources: if the current token has the given kind, advance past it and
return `true`, else return `false` with no side effect. -/
def spn_accept (p : SpnParser) (t : Tok) : Bool × SpnParser :=
  if p.curtok.tok = t then
    let (_, p') := spn_lex p
    (true, p')
  else (false, p)

/-- Modelled from the spec: the lexer's `accept_any` (`spn_accept_multi`),
not among the sources; the parallel token/node-kind arrays of the C parser
are zipped into one association list, and the matched node kind stands for
the matched index. -/
def spn_accept_multi (p : SpnParser) (ops : List (Tok × NodeKind)) :
    Option NodeKind × SpnParser :=
  match ops.find? (fun op => op.1 == p.curtok.tok) with
  | some op =>
    let (_, p') := spn_lex p
    (some op.2, p')
  | none => (none, p)

/-- AST nodes (`SpnAST`): a binary tree with a kind tag, a line, optional
children (the `null` constructor stands for a NULL child pointer), an
optional owned name and a literal payload. -/
inductive AST where
  | null
  | mk (node : NodeKind) (line : Nat) (left : AST) (right : AST)
       (name : Option String) (value : Val)
deriving DecidableEq, Repr

/-- Translation of `spn_ast_new`: a fresh node with no children, no name
and no payload. -/
def spn_ast_new (k : NodeKind) (line : Nat) : AST :=
  .mk k line .null .null none .vNone

/-- The kind tag of a node (`ast->node`); reading it from a NULL node would
be undefined in C and is mapped to `empty` here (never exercised). -/
def AST.node : AST → NodeKind
  | .null => .empty
  | .mk k _ _ _ _ _ => k

/-- The line of a node (`ast->line`). -/
def AST.line : AST → Nat
  | .null => 0
  | .mk _ l _ _ _ _ => l

/-- The left child of a node (`ast->left`). -/
def AST.left : AST → AST
  | .null => .null
  | .mk _ _ l _ _ _ => l

/-- The right child of a node (`ast->right`). -/
def AST.right : AST → AST
  | .null => .null
  | .mk _ _ _ r _ _ => r

/-- The name payload of a node (`ast->name`). -/
def AST.name : AST → Option String
  | .null => none
  | .mk _ _ _ _ n _ => n

/-- The literal payload of a node (`ast->value`). -/
def AST.value : AST → Val
  | .null => .vNone
  | .mk _ _ _ _ _ v => v

/-- Assignment `ast->left = x`. -/
def AST.setLeft : AST → AST → AST
  | .null, _ => .null
  | .mk k ln _ r n v, x => .mk k ln x r n v

/-- Assignment `ast->right = x`. -/
def AST.setRight : AST → AST → AST
  | .null, _ => .null
  | .mk k ln l _ n v, x => .mk k ln l x n v

/-- Assignment `ast->name = x`. -/
def AST.setName : AST → Option String → AST
  | .null, _ => .null
  | .mk k ln l r _ v, x => .mk k ln l r x v

/-- Assignment `ast->value = x`. -/
def AST.setValue : AST → Val → AST
  | .null, _ => .null
  | .mk k ln l r n _, x => .mk k ln l r n x

/-- In-place kind rewrite `ast->node = k` (the list-flattening hack). -/
def AST.setNode : AST → NodeKind → AST
  | .null, _ => .null
  | .mk _ ln l r n v, k => .mk k ln l r n v

/-- Operator table of `parse_assignment` (parallel arrays zipped). -/
def assignOps : List (Tok × NodeKind) :=
  [(.assign, .assign), (.pluseq, .assignAdd), (.minuseq, .assignSub),
   (.muleq, .assignMul), (.diveq, .assignDiv), (.modeq, .assignMod),
   (.andeq, .assignAnd), (.oreq, .assignOr), (.xoreq, .assignXor),
   (.shleq, .assignShl), (.shreq, .assignShr), (.dotdoteq, .assignConcat)]

/-- Operator table of `parse_concat`. -/
def concatOps : List (Tok × NodeKind) := [(.dotdot, .concat)]

/-- Operator table of `parse_logical_or`. -/
def logorOps : List (Tok × NodeKind) := [(.logor, .logor)]

/-- Operator table of `parse_logical_and`. -/
def logandOps : List (Tok × NodeKind) := [(.logand, .logand)]

/-- Operator table of `parse_comparison`. -/
def comparisonOps : List (Tok × NodeKind) :=
  [(.equal, .equal), (.noteq, .noteq), (.less, .less),
   (.greater, .greater), (.leq, .leq), (.geq, .geq)]

/-- Operator table of `parse_bitwise_or`. -/
def bitorOps : List (Tok × NodeKind) := [(.bitor, .bitor)]

/-- Operator table of `parse_bitwise_xor`. -/
def bitxorOps : List (Tok × NodeKind) := [(.bitxor, .bitxor)]

/-- Operator table of `parse_bitwise_and`. -/
def bitandOps : List (Tok × NodeKind) := [(.bitand, .bitand)]

/-- Operator table of `parse_shift`. -/
def shiftOps : List (Tok × NodeKind) := [(.shl, .shl), (.shr, .shr)]

/-- Operator table of `parse_additive`. -/
def additiveOps : List (Tok × NodeKind) := [(.plus, .add), (.minus, .sub)]

/-- Operator table of `parse_multiplicative`. -/
def multiplicativeOps : List (Tok × NodeKind) :=
  [(.mul, .mul), (.div, .div), (.mod, .mod)]

/-- Operator table of `parse_prefix`. -/
def prefixOps : List (Tok × NodeKind) :=
  [(.incr, .preincrmt), (.decr, .predecrmt), (.plus, .unplus),
   (.minus, .unminus), (.lognot, .lognot), (.bitnot, .bitnot),
   (.tSizeof, .nSizeof), (.tTypeof, .nTypeof), (.hash, .ntharg)]

/-- Operator table of `parse_postfix`; both `.` and `->` map to
`memberof`. -/
def postfixOps : List (Tok × NodeKind) :=
  [(.incr, .postincrmt), (.decr, .postdecrmt), (.lbracket, .arrsub),
   (.lparen, .funccall), (.dot, .memberof), (.arrow, .memberof)]

/-- Requests for the parser interpreter `run`, one per parser function of
`src/parser.c` (loops of the C functions get their own request carrying the
accumulator).  The generic binary-expression helpers carry their operator
table and the request for the next-tighter subexpression level. -/
inductive Req where
  | programR
  | programNonemptyR
  | progLoopR (sub : AST)
  | stmtListR
  | stmtListLoopR (ast : AST)
  | stmtR (is_global : Bool)
  | functionR (is_stmt : Bool)
  | functionBodyR (ast : AST)
  | blockR
  | exprR
  | binRightR (ops : List (Tok × NodeKind)) (sub : Req)
  | binLeftR (ops : List (Tok × NodeKind)) (sub : Req)
  | binLeftLoopR (ops : List (Tok × NodeKind)) (sub : Req) (ast : AST)
  | condexprR
  | prefixExprR
  | postfixExprR
  | postfixLoopR (ast : AST)
  | termR
  | declArgsR
  | declArgsLoopR (node : AST)
  | callArgsR
  | callArgsLoopR (ast : AST)
  | ifR | whileR | doR | forR | foreachR | breakR | continueR | returnR
  | vardeclR | vardeclEntriesR | exprStmtR | emptyR
deriving DecidableEq, Repr

/-- Request for the `parse_multiplicative` level. -/
def multiplicativeReq : Req := .binLeftR multiplicativeOps .prefixExprR

/-- Request for the `parse_additive` level. -/
def additiveReq : Req := .binLeftR additiveOps multiplicativeReq

/-- Request for the `parse_shift` level. -/
def shiftReq : Req := .binLeftR shiftOps additiveReq

/-- Request for the `parse_bitwise_and` level. -/
def bitandReq : Req := .binLeftR bitandOps shiftReq

/-- Request for the `parse_bitwise_xor` level. -/
def bitxorReq : Req := .binLeftR bitxorOps bitandReq

/-- Request for the `parse_bitwise_or` level. -/
def bitorReq : Req := .binLeftR bitorOps bitxorReq

/-- Request for the `parse_comparison` level. -/
def comparisonReq : Req := .binLeftR comparisonOps bitorReq

/-- Request for the `parse_logical_and` level. -/
def logandReq : Req := .binLeftR logandOps comparisonReq

/-- Request for the `parse_logical_or` level. -/
def logorReq : Req := .binLeftR logorOps logandReq

/-- Request for the `parse_concat` level (its subexpression level is the
conditional expression). -/
def concatReq : Req := .binLeftR concatOps .condexprR

/-- Request for the `parse_assignment` level (right-associative, over the
concatenation level). -/
def assignReq : Req := .binRightR assignOps concatReq

/-- Tail of `parse_program` (lines 163-175 of `parser.c`): on EOF the
parsed tree is the result; otherwise the tree is discarded, the error
"garbage after input" is reported unless an error was already recorded,
and the parse fails. -/
def parse_program_finish (tree : Option AST) (p : SpnParser) : Option AST × SpnParser :=
  if p.eof then (tree, p)
  else if p.error then (none, p)
  else (none, spn_parser_error p "garbage after input")

/-- The recursive-descent parser of `src/parser.c`, as a single fuel-indexed
interpreter; each `Req` branch is the translation of the corresponding C
function (see the named wrappers below).  Fuel exhaustion returns the
failure result. -/
def run : Nat → Req → SpnParser → Option AST × SpnParser
  | 0, _, p => (none, p)
  | fuel + 1, r, p =>
    match r with
    | .programR =>
      -- parse_program
      let (ok, p) := spn_lex p
      if ok then
        let (tree, p) := run fuel .programNonemptyR p
        parse_program_finish tree p
      else
        if p.error then (none, p) else (some (spn_ast_new .program p.lineno), p)
    | .programNonemptyR =>
      -- parse_program_nonempty
      let (sub, p) := run fuel (.stmtR true) p
      match sub with
      | none => (none, p)
      | some sub =>
        let (res, p) := run fuel (.progLoopR sub) p
        match res with
        | none => (none, p)
        | some sub =>
          if sub.node = .compound then (some (sub.setNode .program), p)
          else (some ((spn_ast_new .program p.lineno).setLeft sub), p)
    | .progLoopR sub =>
      -- the while (!p->eof) loop of parse_program_nonempty
      if p.eof then (some sub, p)
      else
        let (right, p) := run fuel (.stmtR true) p
        match right with
        | none => (none, p)
        | some right =>
          run fuel (.progLoopR (((spn_ast_new .compound p.lineno).setLeft sub).setRight right)) p
    | .stmtListR =>
      -- parse_stmt_list
      let (ast, p) := run fuel (.stmtR false) p
      match ast with
      | none => (none, p)
      | some ast => run fuel (.stmtListLoopR ast) p
    | .stmtListLoopR ast =>
      -- the while (curtok != `}`) loop of parse_stmt_list
      if p.curtok.tok = .rbrace then (some ast, p)
      else
        let (right, p) := run fuel (.stmtR false) p
        match right with
        | none => (none, p)
        | some right =>
          run fuel (.stmtListLoopR (((spn_ast_new .compound p.lineno).setLeft ast).setRight right)) p
    | .stmtR is_global =>
      -- parse_stmt
      match p.curtok.tok with
      | .tIf => run fuel .ifR p
      | .tWhile => run fuel .whileR p
      | .tDo => run fuel .doR p
      | .tFor => run fuel .forR p
      | .tForeach => run fuel .foreachR p
      | .tBreak => run fuel .breakR p
      | .tContinue => run fuel .continueR p
      | .tReturn => run fuel .returnR p
      | .semicolon => run fuel .emptyR p
      | .lbrace => run fuel .blockR p
      | .tVar => run fuel .vardeclR p
      | .tFunction =>
        if is_global then run fuel (.functionR true) p
        else run fuel .exprStmtR p
      | _ => run fuel .exprStmtR p
    | .functionR is_stmt =>
      -- parse_function
      let (ok, p) := spn_accept p .tFunction
      if ok then
        let (node, name, nameOk, p) :=
          if is_stmt then
            if p.curtok.tok = .ident then
              let nm := p.curtok.val.asStr
              let (_, p) := spn_lex p
              (NodeKind.funcstmt, nm, true, p)
            else (NodeKind.funcstmt, none, false, p)
          else (NodeKind.funcexpr, none, true, p)
        if nameOk then
          let (okp, p) := spn_accept p .lparen
          if okp then
            let ast := (spn_ast_new node p.lineno).setName name
            let (okr, p) := spn_accept p .rparen
            if okr then run fuel (.functionBodyR ast) p
            else
              let (arglist, p) := run fuel .declArgsR p
              match arglist with
              | none => (none, p)
              | some arglist =>
                let ast := ast.setLeft arglist
                let (okr2, p) := spn_accept p .rparen
                if okr2 then run fuel (.functionBodyR ast) p
                else (none, spn_parser_error p "expected ) after function argument list")
          else (none, spn_parser_error p "expected ( in function header")
        else (none, spn_parser_error p "expected function name in function statement")
      else (none, spn_parser_error p "internal error, expected function")
    | .functionBodyR ast =>
      -- tail of parse_function: parse the body block and attach it
      let (body, p) := run fuel .blockR p
      match body with
      | none => (none, p)
      | some body => (some (ast.setRight body), p)
    | .blockR =>
      -- parse_block
      let (ok, p) := spn_accept p .lbrace
      if ok then
        let (ok2, p) := spn_accept p .rbrace
        if ok2 then (some (spn_ast_new .empty p.lineno), p)
        else
          let (list, p) := run fuel .stmtListR p
          match list with
          | none => (none, p)
          | some list =>
            let (ok3, p) := spn_accept p .rbrace
            if ok3 then
              if list.node = .compound then (some (list.setNode .block), p)
              else (some ((spn_ast_new .block p.lineno).setLeft list), p)
            else (none, spn_parser_error p "expected right brace at end of block statement")
      else (none, spn_parser_error p "expected left brace in block statement")
    | .exprR =>
      -- parse_expr
      run fuel assignReq p
    | .binRightR ops sub =>
      -- parse_binexpr_rightassoc
      let (ast, p) := run fuel sub p
      match ast with
      | none => (none, p)
      | some ast =>
        match spn_accept_multi p ops with
        | (none, p) => (some ast, p)
        | (some nk, p) =>
          let (right, p) := run fuel (.binRightR ops sub) p
          match right with
          | none => (none, p)
          | some right =>
            (some (((spn_ast_new nk p.lineno).setLeft ast).setRight right), p)
    | .binLeftR ops sub =>
      -- parse_binexpr_leftassoc
      let (ast, p) := run fuel sub p
      match ast with
      | none => (none, p)
      | some ast => run fuel (.binLeftLoopR ops sub ast) p
    | .binLeftLoopR ops sub ast =>
      -- the iteration of parse_binexpr_leftassoc
      match spn_accept_multi p ops with
      | (none, p) => (some ast, p)
      | (some nk, p) =>
        let (right, p) := run fuel sub p
        match right with
        | none => (none, p)
        | some right =>
          run fuel (.binLeftLoopR ops sub (((spn_ast_new nk p.lineno).setLeft ast).setRight right)) p
    | .condexprR =>
      -- parse_condexpr
      let (ast, p) := run fuel logorReq p
      match ast with
      | none => (none, p)
      | some ast =>
        let (ok, p) := spn_accept p .qmark
        if ok then
          let (brTrue, p) := run fuel .exprR p
          match brTrue with
          | none => (none, p)
          | some brTrue =>
            let (okc, p) := spn_accept p .colon
            if okc then
              let (brFalse, p) := run fuel .condexprR p
              match brFalse with
              | none => (none, p)
              | some brFalse =>
                let branches := ((spn_ast_new .branches p.lineno).setLeft brTrue).setRight brFalse
                (some (((spn_ast_new .condexpr p.lineno).setLeft ast).setRight branches), p)
            else (none, spn_parser_error p "expected : in conditional expression")
        else (some ast, p)
    | .prefixExprR =>
      -- parse_prefix
      match spn_accept_multi p prefixOps with
      | (none, p) => run fuel .postfixExprR p
      | (some nk, p) =>
        let (operand, p) := run fuel .prefixExprR p
        match operand with
        | none => (none, p)
        | some operand => (some ((spn_ast_new nk p.lineno).setLeft operand), p)
    | .postfixExprR =>
      -- parse_postfix
      let (ast, p) := run fuel .termR p
      match ast with
      | none => (none, p)
      | some ast => run fuel (.postfixLoopR ast) p
    | .postfixLoopR ast =>
      -- the iteration of parse_postfix
      match spn_accept_multi p postfixOps with
      | (none, p) => (some ast, p)
      | (some nk, p) =>
        let tmp := spn_ast_new nk p.lineno
        match nk with
        | .postincrmt => run fuel (.postfixLoopR (tmp.setLeft ast)) p
        | .postdecrmt => run fuel (.postfixLoopR (tmp.setLeft ast)) p
        | .arrsub =>
          let (expr, p) := run fuel .exprR p
          match expr with
          | none => (none, p)
          | some expr =>
            let tmp := (tmp.setLeft ast).setRight expr
            let (ok, p) := spn_accept p .rbracket
            if ok then run fuel (.postfixLoopR tmp) p
            else (none, spn_parser_error p "expected ] after expression in array subscript")
        | .memberof =>
          if p.curtok.tok = .ident then
            let (idn, p) := run fuel .termR p
            match idn with
            | none => (none, p)
            | some idn => run fuel (.postfixLoopR ((tmp.setLeft ast).setRight idn)) p
          else (none, spn_parser_error p "expected identifier after . or -> operator")
        | .funccall =>
          let tmp := tmp.setLeft ast
          let (filled, p) :=
            if p.curtok.tok ≠ .rparen then
              let (arglist, p) := run fuel .callArgsR p
              match arglist with
              | none => (none, p)
              | some a => (some (tmp.setRight a), p)
            else (some tmp, p)
          match filled with
          | none => (none, p)
          | some tmp =>
            let (ok, p) := spn_accept p .rparen
            if ok then run fuel (.postfixLoopR tmp) p
            else (none, spn_parser_error p "expected ) after expression in function call")
        | _ => (none, p)  -- SHANT_BE_REACHED
    | .termR =>
      -- parse_term
      match p.curtok.tok with
      | .lparen =>
        let (_, p) := spn_lex p
        let (ast, p) := run fuel .exprR p
        match ast with
        | none => (none, p)
        | some ast =>
          let (ok, p) := spn_accept p .rparen
          if ok then (some ast, p)
          else (none, spn_parser_error p "expected ) after parenthesized expression")
      | .tFunction => run fuel (.functionR false) p
      | .ident =>
        let ast := (spn_ast_new .ident p.lineno).setName p.curtok.val.asStr
        let (_, p) := spn_lex p
        if p.error then (none, p) else (some ast, p)
      | .tTrue =>
        let ast := (spn_ast_new .literal p.lineno).setValue (.vBool true)
        let (_, p) := spn_lex p
        if p.error then (none, p) else (some ast, p)
      | .tFalse =>
        let ast := (spn_ast_new .literal p.lineno).setValue (.vBool false)
        let (_, p) := spn_lex p
        if p.error then (none, p) else (some ast, p)
      | .tNil =>
        let ast := (spn_ast_new .literal p.lineno).setValue .vNil
        let (_, p) := spn_lex p
        if p.error then (none, p) else (some ast, p)
      | .tNan =>
        let ast := (spn_ast_new .literal p.lineno).setValue .vFloatNan
        let (_, p) := spn_lex p
        if p.error then (none, p) else (some ast, p)
      | .intLit =>
        let ast := (spn_ast_new .literal p.lineno).setValue p.curtok.val
        let (_, p) := spn_lex p
        if p.error then (none, p) else (some ast, p)
      | .floatLit =>
        let ast := (spn_ast_new .literal p.lineno).setValue p.curtok.val
        let (_, p) := spn_lex p
        if p.error then (none, p) else (some ast, p)
      | .strLit =>
        let ast := (spn_ast_new .literal p.lineno).setValue p.curtok.val
        let (_, p) := spn_lex p
        if p.error then (none, p) else (some ast, p)
      | _ => (none, spn_parser_error p "unexpected token")
    | .declArgsR =>
      -- parse_decl_args
      let name := p.curtok.val.asStr
      let (ok, p) := spn_accept p .ident
      if ok then
        run fuel (.declArgsLoopR ((spn_ast_new .declargs p.lineno).setName name)) p
      else (none, spn_parser_error p "expected identifier in function argument list")
    | .declArgsLoopR node =>
      -- the while (accept comma) loop of parse_decl_args, which appends
      -- each further argument through the left child of the current tail
      let (ok, p) := spn_accept p .comma
      if ok then
        let name := p.curtok.val.asStr
        let (oki, p) := spn_accept p .ident
        if oki then
          let tmp := (spn_ast_new .declargs p.lineno).setName name
          let (restc, p) := run fuel (.declArgsLoopR tmp) p
          match restc with
          | none => (none, p)
          | some restc => (some (node.setLeft restc), p)
        else (none, spn_parser_error p "expected identifier in function argument list")
      else (some node, p)
    | .callArgsR =>
      -- parse_call_args
      let (expr, p) := run fuel .exprR p
      match expr with
      | none => (none, p)
      | some expr =>
        run fuel (.callArgsLoopR ((spn_ast_new .callargs p.lineno).setRight expr)) p
    | .callArgsLoopR ast =>
      -- the while (accept comma) loop of parse_call_args (head-growing)
      let (ok, p) := spn_accept p .comma
      if ok then
        let (right, p) := run fuel .exprR p
        match right with
        | none => (none, p)
        | some right =>
          run fuel (.callArgsLoopR (((spn_ast_new .callargs p.lineno).setLeft ast).setRight right)) p
      else (some ast, p)
    | .ifR =>
      -- parse_if
      let (ok, p) := spn_lex p
      if ok then
        let (cond, p) := run fuel .exprR p
        match cond with
        | none => (none, p)
        | some cond =>
          let (brThen, p) := run fuel .blockR p
          match brThen with
          | none => (none, p)
          | some brThen =>
            let (okE, p) := spn_accept p .tElse
            let (good, brElse, p) :=
              if okE then
                if p.curtok.tok = .lbrace then
                  let (b, p) := run fuel .blockR p
                  match b with
                  | none => (false, AST.null, p)
                  | some b => (true, b, p)
                else if p.curtok.tok = .tIf then
                  let (b, p) := run fuel .ifR p
                  match b with
                  | none => (false, AST.null, p)
                  | some b => (true, b, p)
                else (false, AST.null, spn_parser_error p "expected block or if after else")
              else (true, AST.null, p)
            if good then
              let br := ((spn_ast_new .branches p.lineno).setLeft brThen).setRight brElse
              (some (((spn_ast_new .nIf p.lineno).setLeft cond).setRight br), p)
            else (none, p)
      else (none, p)
    | .whileR =>
      -- parse_while
      let (ok, p) := spn_lex p
      if ok then
        let (cond, p) := run fuel .exprR p
        match cond with
        | none => (none, p)
        | some cond =>
          let (body, p) := run fuel .blockR p
          match body with
          | none => (none, p)
          | some body =>
            (some (((spn_ast_new .nWhile p.lineno).setLeft cond).setRight body), p)
      else (none, p)
    | .doR =>
      -- parse_do (left child is the condition, right child the body)
      let (ok, p) := spn_lex p
      if ok then
        let (body, p) := run fuel .blockR p
        match body with
        | none => (none, p)
        | some body =>
          let (okw, p) := spn_accept p .tWhile
          if okw then
            let (cond, p) := run fuel .exprR p
            match cond with
            | none => (none, p)
            | some cond =>
              let (oks, p) := spn_accept p .semicolon
              if oks then
                (some (((spn_ast_new .nDo p.lineno).setLeft cond).setRight body), p)
              else (none, spn_parser_error p "expected ; after condition of do-while statement")
          else (none, spn_parser_error p "expected while after body of do-while statement")
      else (none, p)
    | .forR =>
      -- parse_for
      let (ok, p) := spn_lex p
      if ok then
        let (init, p) := run fuel .exprR p
        match init with
        | none => (none, p)
        | some init =>
          let (ok1, p) := spn_accept p .semicolon
          if ok1 then
            let (cond, p) := run fuel .exprR p
            match cond with
            | none => (none, p)
            | some cond =>
              let (ok2, p) := spn_accept p .semicolon
              if ok2 then
                let (incr, p) := run fuel .exprR p
                match incr with
                | none => (none, p)
                | some incr =>
                  let (body, p) := run fuel .blockR p
                  match body with
                  | none => (none, p)
                  | some body =>
                    let h3 := (spn_ast_new .forheader p.lineno).setLeft incr
                    let h2 := ((spn_ast_new .forheader p.lineno).setLeft cond).setRight h3
                    let h1 := ((spn_ast_new .forheader p.lineno).setLeft init).setRight h2
                    (some (((spn_ast_new .nFor p.lineno).setLeft h1).setRight body), p)
              else (none, spn_parser_error p "expected ; after condition of for loop")
          else (none, spn_parser_error p "expected ; after initialization of for loop")
      else (none, p)
    | .foreachR =>
      -- parse_foreach
      let (ok, p) := spn_lex p
      if ok then
        let name := p.curtok.val.asStr
        let (okk, p) := spn_accept p .ident
        if okk then
          let key := (spn_ast_new .ident p.lineno).setName name
          let (oka, p) := spn_accept p .tAs
          if oka then
            let name2 := p.curtok.val.asStr
            let (okv, p) := spn_accept p .ident
            if okv then
              let val := (spn_ast_new .ident p.lineno).setName name2
              let (oki, p) := spn_accept p .tIn
              if oki then
                let (arr, p) := run fuel .exprR p
                match arr with
                | none => (none, p)
                | some arr =>
                  let (body, p) := run fuel .blockR p
                  match body with
                  | none => (none, p)
                  | some body =>
                    let h3 := (spn_ast_new .forheader p.lineno).setLeft arr
                    let h2 := ((spn_ast_new .forheader p.lineno).setLeft val).setRight h3
                    let h1 := ((spn_ast_new .forheader p.lineno).setLeft key).setRight h2
                    (some (((spn_ast_new .nForeach p.lineno).setLeft h1).setRight body), p)
              else (none, spn_parser_error p "expected in after value in foreach loop")
            else (none, spn_parser_error p "value in foreach loop must be a variable")
          else (none, spn_parser_error p "expected as after key in foreach loop")
        else (none, spn_parser_error p "key in foreach loop must be a variable")
      else (none, p)
    | .breakR =>
      -- parse_break
      let (ok, p) := spn_lex p
      if ok then
        let (oks, p) := spn_accept p .semicolon
        if oks then (some (spn_ast_new .nBreak p.lineno), p)
        else (none, spn_parser_error p "expected ; after break")
      else (none, p)
    | .continueR =>
      -- parse_continue
      let (ok, p) := spn_lex p
      if ok then
        let (oks, p) := spn_accept p .semicolon
        if oks then (some (spn_ast_new .nContinue p.lineno), p)
        else (none, spn_parser_error p "expected ; after continue")
      else (none, p)
    | .returnR =>
      -- parse_return
      let (ok, p) := spn_lex p
      if ok then
        let (oks, p) := spn_accept p .semicolon
        if oks then (some (spn_ast_new .nReturn p.lineno), p)
        else
          let (expr, p) := run fuel .exprR p
          match expr with
          | none => (none, p)
          | some expr =>
            let (oks2, p) := spn_accept p .semicolon
            if oks2 then (some ((spn_ast_new .nReturn p.lineno).setLeft expr), p)
            else (none, spn_parser_error p "expected ; after expression in return statement")
      else (none, p)
    | .vardeclR =>
      -- parse_vardecl (the lex result for the `var` keyword is ignored)
      let (_, p) := spn_lex p
      let (ast, p) := run fuel .vardeclEntriesR p
      match ast with
      | none => (none, p)
      | some ast =>
        let (oks, p) := spn_accept p .semicolon
        if oks then (some ast, p)
        else (none, spn_parser_error p "expected ; after variable initialization")
    | .vardeclEntriesR =>
      -- the do-while loop of parse_vardecl, chaining entries through right
      let name := p.curtok.val.asStr
      let (ok, p) := spn_accept p .ident
      if ok then
        let (okA, p) := spn_accept p .assign
        let (expr, good, p) :=
          if okA then
            let (e, p) := run fuel .exprR p
            match e with
            | none => (AST.null, false, p)
            | some e => (e, true, p)
          else (AST.null, true, p)
        if good then
          let tmp := ((spn_ast_new .vardecl p.lineno).setName name).setLeft expr
          let (okC, p) := spn_accept p .comma
          if okC then
            let (restd, p) := run fuel .vardeclEntriesR p
            match restd with
            | none => (none, p)
            | some restd => (some (tmp.setRight restd), p)
          else (some tmp, p)
        else (none, p)
      else (none, spn_parser_error p "expected identifier in declaration")
    | .exprStmtR =>
      -- parse_expr_stmt
      let (ast, p) := run fuel .exprR p
      match ast with
      | none => (none, p)
      | some ast =>
        let (ok, p) := spn_accept p .semicolon
        if ok then (some ast, p)
        else (none, spn_parser_error p "expected ; after expression")
    | .emptyR =>
      -- parse_empty
      let (_, p) := spn_lex p
      if p.error then (none, p) else (some (spn_ast_new .empty p.lineno), p)

/-- Translation of `spn_parser_parse`: re-initialize the parser state (the
cursor, the `eof` and `error` flags and the line counter — but not the
retained error message), then run `parse_program`. -/
def spn_parser_parse (fuel : Nat) (p : SpnParser) (src : List Token) :
    Option AST × SpnParser :=
  run fuel .programR
    { p with rest := src, eof := false, error := false, lineno := 1 }

/-- Wrapper with the source name: `parse_program`. -/
def parse_program (fuel : Nat) (p : SpnParser) : Option AST × SpnParser :=
  run fuel .programR p

/-- Wrapper with the source name: `parse_program_nonempty`. -/
def parse_program_nonempty (fuel : Nat) (p : SpnParser) : Option AST × SpnParser :=
  run fuel .programNonemptyR p

/-- Wrapper with the source name: `parse_stmt_list`. -/
def parse_stmt_list (fuel : Nat) (p : SpnParser) : Option AST × SpnParser :=
  run fuel .stmtListR p

/-- Wrapper with the source name: `parse_stmt`. -/
def parse_stmt (fuel : Nat) (is_global : Bool) (p : SpnParser) : Option AST × SpnParser :=
  run fuel (.stmtR is_global) p

/-- Wrapper with the source name: `parse_function`. -/
def parse_function (fuel : Nat) (is_stmt : Bool) (p : SpnParser) : Option AST × SpnParser :=
  run fuel (.functionR is_stmt) p

/-- Wrapper with the source name: `parse_block`. -/
def parse_block (fuel : Nat) (p : SpnParser) : Option AST × SpnParser :=
  run fuel .blockR p

/-- Wrapper with the source name: `parse_expr`. -/
def parse_expr (fuel : Nat) (p : SpnParser) : Option AST × SpnParser :=
  run fuel .exprR p

/-- Wrapper with the source name: `parse_assignment`. -/
def parse_assignment (fuel : Nat) (p : SpnParser) : Option AST × SpnParser :=
  run fuel assignReq p

/-- Wrapper with the source name: `parse_concat`. -/
def parse_concat (fuel : Nat) (p : SpnParser) : Option AST × SpnParser :=
  run fuel concatReq p

/-- Wrapper with the source name: `parse_condexpr`. -/
def parse_condexpr (fuel : Nat) (p : SpnParser) : Option AST × SpnParser :=
  run fuel .condexprR p

/-- Wrapper with the source name: `parse_logical_or`. -/
def parse_logical_or (fuel : Nat) (p : SpnParser) : Option AST × SpnParser :=
  run fuel logorReq p

/-- Wrapper with the source name: `parse_additive`. -/
def parse_additive (fuel : Nat) (p : SpnParser) : Option AST × SpnParser :=
  run fuel additiveReq p

/-- Wrapper with the source name: `parse_multiplicative`. -/
def parse_multiplicative (fuel : Nat) (p : SpnParser) : Option AST × SpnParser :=
  run fuel multiplicativeReq p

/-- Wrapper with the source name: `parse_prefix` (renamed `parse_prefix_expr`). -/
def parse_prefix_expr (fuel : Nat) (p : SpnParser) : Option AST × SpnParser :=
  run fuel .prefixExprR p

/-- Wrapper with the source name: `parse_postfix` (renamed `parse_postfix_expr`). -/
def parse_postfix_expr (fuel : Nat) (p : SpnParser) : Option AST × SpnParser :=
  run fuel .postfixExprR p

/-- The iteration of `parse_postfix`, with the expression built so far. -/
def postfix_loop (fuel : Nat) (ast : AST) (p : SpnParser) : Option AST × SpnParser :=
  run fuel (.postfixLoopR ast) p

/-- Wrapper with the source name: `parse_term`. -/
def parse_term (fuel : Nat) (p : SpnParser) : Option AST × SpnParser :=
  run fuel .termR p

/-- Wrapper with the source name: `parse_decl_args`. -/
def parse_decl_args (fuel : Nat) (p : SpnParser) : Option AST × SpnParser :=
  run fuel .declArgsR p

/-- Wrapper with the source name: `parse_call_args`. -/
def parse_call_args (fuel : Nat) (p : SpnParser) : Option AST × SpnParser :=
  run fuel .callArgsR p

/-- Wrapper with the source name: `parse_vardecl`. -/
def parse_vardecl (fuel : Nat) (p : SpnParser) : Option AST × SpnParser :=
  run fuel .vardeclR p

/-- Wrapper with the source name: `parse_if`. -/
def parse_if (fuel : Nat) (p : SpnParser) : Option AST × SpnParser :=
  run fuel .ifR p

/-- Wrapper with the source name: `parse_empty`. -/
def parse_empty (fuel : Nat) (p : SpnParser) : Option AST × SpnParser :=
  run fuel .emptyR p

/-- A payload-less token on a given line. -/
def tk (t : Tok) (l : Nat) : Token := ⟨t, .vNone, l⟩

/-- An identifier token on a given line. -/
def idk (s : String) (l : Nat) : Token := ⟨.ident, .vStr s, l⟩

/-- Shorthand for an expected `Ident` node. -/
def identNode (s : String) (l : Nat) : AST := (spn_ast_new .ident l).setName (some s)

/-- Shorthand for an expected binary node with both children. -/
def binNode (k : NodeKind) (l : Nat) (a b : AST) : AST :=
  ((spn_ast_new k l).setLeft a).setRight b

/-- The left-leaning spine the statement loops accumulate: starting from a
first element `a`, each later element `x` (paired with the line recorded on
its link node) is attached as the `right` child of a fresh `k`-node whose
`left` child is the tree built so far.  In-order traversal recovers the
elements in source order. -/
def spineFold (k : NodeKind) (a : AST) (l : List (AST × Nat)) : AST :=
  l.foldl (fun acc pr => ((spn_ast_new k pr.2).setLeft acc).setRight pr.1) a

/-- The list-flattening hack shared by `parse_program_nonempty` and
`parse_block`: a `Compound` spine has its kind rewritten in place to `k`,
anything else (a single statement) is wrapped as `left` of a fresh
`k`-node. -/
def flatten_wrap (k : NodeKind) (ln : Nat) (sub : AST) : AST :=
  if sub.node = .compound then sub.setNode k
  else (spn_ast_new k ln).setLeft sub

/-- A `DeclArgs` chain as `parse_decl_args` builds it: one node per formal
parameter name, each further node linked through the `left` child of the
previous one; `right` children stay absent. -/
def declChain : Option String × Nat → List (Option String × Nat) → AST
  | (nm, ln), [] => (spn_ast_new .declargs ln).setName nm
  | (nm, ln), x :: xs => ((spn_ast_new .declargs ln).setName nm).setLeft (declChain x xs)

/-- A `VarDecl` chain as `parse_vardecl` builds it: one node per entry
carrying the declared name and the (possibly absent) initializer in `left`,
with the next declaration linked through `right`. -/
def varChain : Option String × AST × Nat → List (Option String × AST × Nat) → AST
  | (nm, e, ln), [] => ((spn_ast_new .vardecl ln).setName nm).setLeft e
  | (nm, e, ln), x :: xs =>
    (((spn_ast_new .vardecl ln).setName nm).setLeft e).setRight (varChain x xs)

/-- A failing `spn_accept` leaves the parser state untouched. -/
theorem spn_accept_false : ∀ (p : SpnParser) (t : Tok) (q : SpnParser),
    spn_accept p t = (false, q) → q = p := by
  intro p t q h
  simp only [spn_accept] at h
  by_cases hc : p.curtok.tok = t
  · rw [if_pos hc] at h
    match hx : spn_lex p with
    | (b, p2) => simp only [hx] at h; simp at h
  · rw [if_neg hc] at h
    exact ((Prod.mk.injEq .. ▸ h).2).symm

/-- The list of further statements parsed by the `while (!p->eof)` loop of
`parse_program_nonempty`, in source order, each paired with the line that
is recorded on its `Compound` link node; the returned state is the loop's
final state. -/
def stmtLoopList : Nat → SpnParser → Option (List (AST × Nat)) × SpnParser
  | 0, p => (none, p)
  | fuel + 1, p =>
    if p.eof then (some [], p)
    else
      match run fuel (.stmtR true) p with
      | (none, q) => (none, q)
      | (some s, q) =>
        match stmtLoopList fuel q with
        | (none, q') => (none, q')
        | (some l, q') => (some ((s, q.lineno) :: l), q')

/-- The loop of `parse_program_nonempty` is exactly: parse the further
statements into the list `stmtLoopList` computes and left-fold them onto
the accumulator as a left-leaning `Compound` spine — each new statement
becomes the `right` child of a fresh `Compound` node whose `left` child is
the tree built so far. -/
theorem progLoop_eq_list : ∀ (fuel : Nat) (sub : AST) (p : SpnParser),
    run fuel (.progLoopR sub) p
      = (match stmtLoopList fuel p with
         | (none, q) => (none, q)
         | (some l, q) => (some (spineFold .compound sub l), q)) := by
  intro fuel
  induction fuel with
  | zero => intro sub p; rfl
  | succ n ih =>
    intro sub p
    simp only [run, stmtLoopList]
    by_cases hp : p.eof = true
    · rw [if_pos hp, if_pos hp]
      rfl
    · rw [if_neg hp, if_neg hp]
      match hs : run n (.stmtR true) p with
      | (none, q) => simp only [hs]
      | (some s, q) =>
        simp only [hs, ih]
        match hl : stmtLoopList n q with
        | (none, q') => simp only [hl]
        | (some l, q') => simp only [hl]; rfl

/-- The list of further statements parsed by the loop of
`parse_stmt_list` (which stops at a closing brace), in source order with
their link-node lines. -/
def stmtListLoopList : Nat → SpnParser → Option (List (AST × Nat)) × SpnParser
  | 0, p => (none, p)
  | fuel + 1, p =>
    if p.curtok.tok = .rbrace then (some [], p)
    else
      match run fuel (.stmtR false) p with
      | (none, q) => (none, q)
      | (some s, q) =>
        match stmtListLoopList fuel q with
        | (none, q') => (none, q')
        | (some l, q') => (some ((s, q.lineno) :: l), q')

/-- The loop of `parse_stmt_list` likewise is exactly a left fold of the
statement list it parses onto the accumulator, as a left-leaning `Compound`
spine. -/
theorem stmtListLoop_eq_list : ∀ (fuel : Nat) (ast : AST) (p : SpnParser),
    run fuel (.stmtListLoopR ast) p
      = (match stmtListLoopList fuel p with
         | (none, q) => (none, q)
         | (some l, q) => (some (spineFold .compound ast l), q)) := by
  intro fuel
  induction fuel with
  | zero => intro ast p; rfl
  | succ n ih =>
    intro ast p
    simp only [run, stmtListLoopList]
    by_cases hp : p.curtok.tok = .rbrace
    · rw [if_pos hp, if_pos hp]
      rfl
    · rw [if_neg hp, if_neg hp]
      match hs : run n (.stmtR false) p with
      | (none, q) => simp only [hs]
      | (some s, q) =>
        simp only [hs, ih]
        match hl : stmtListLoopList n q with
        | (none, q') => simp only [hl]
        | (some l, q') => simp only [hl]; rfl

/-- Appending the loop result of `parse_decl_args` to the current tail
node: no further names leave the node alone, otherwise the chain of the
remaining names hangs off its `left` child. -/
def declAppend (node : AST) : List (Option String × Nat) → AST
  | [] => node
  | x :: xs => node.setLeft (declChain x xs)

theorem declAppend_fresh (nm : Option String) (ln : Nat) (l : List (Option String × Nat)) :
    declAppend ((spn_ast_new .declargs ln).setName nm) l = declChain (nm, ln) l := by
  cases l <;> rfl

/-- The loop of `parse_decl_args` appends every further formal parameter
through the `left` child of the current tail node. -/
theorem declArgsLoop_chain : ∀ (fuel : Nat) (node : AST) (p : SpnParser) (t : AST) (p' : SpnParser),
    run fuel (.declArgsLoopR node) p = (some t, p') →
    ∃ l : List (Option String × Nat), t = declAppend node l := by
  intro fuel
  induction fuel with
  | zero => intro node p t p' h; simp [run] at h
  | succ n ih =>
    intro node p t p' h
    simp only [run] at h
    match ha : spn_accept p .comma with
    | (ok, p1) =>
      rw [ha] at h
      cases ok with
      | false =>
        simp only [Bool.false_eq_true, if_false, Prod.mk.injEq, Option.some.injEq] at h
        exact ⟨[], h.1.symm⟩
      | true =>
        simp only [if_true] at h
        match hi : spn_accept p1 .ident with
        | (oki, p2) =>
          rw [hi] at h
          cases oki with
          | false => simp at h
          | true =>
            simp only [if_true] at h
            match hr : run n (.declArgsLoopR ((spn_ast_new .declargs p2.lineno).setName p1.curtok.val.asStr)) p2 with
            | (none, p3) => rw [hr] at h; simp at h
            | (some restc, p3) =>
              rw [hr] at h
              simp only [Prod.mk.injEq, Option.some.injEq] at h
              obtain ⟨l, hl⟩ := ih _ _ _ _ hr
              refine ⟨(p1.curtok.val.asStr, p2.lineno) :: l, ?_⟩
              rw [← h.1, hl, declAppend_fresh]
              rfl

/-- The loop of `parse_call_args` only extends its accumulator into the
head-growing `CallArgs` spine (each new argument becomes the `right` child
of a fresh `CallArgs` node whose `left` child is the list built so far). -/
theorem callArgsLoop_spine : ∀ (fuel : Nat) (ast : AST) (p : SpnParser) (t : AST) (p' : SpnParser),
    run fuel (.callArgsLoopR ast) p = (some t, p') →
    ∃ l : List (AST × Nat), t = spineFold .callargs ast l := by
  intro fuel
  induction fuel with
  | zero => intro ast p t p' h; simp [run] at h
  | succ n ih =>
    intro ast p t p' h
    simp only [run] at h
    match ha : spn_accept p .comma with
    | (ok, p1) =>
      rw [ha] at h
      cases ok with
      | false =>
        simp only [Bool.false_eq_true, if_false, Prod.mk.injEq, Option.some.injEq] at h
        exact ⟨[], h.1.symm⟩
      | true =>
        simp only [if_true] at h
        match he : run n .exprR p1 with
        | (none, p2) => rw [he] at h; simp at h
        | (some right, p2) =>
          rw [he] at h
          obtain ⟨l, hl⟩ := ih _ _ _ _ h
          exact ⟨(right, p2.lineno) :: l, hl⟩

/-- The do-while loop of `parse_vardecl` produces a `VarDecl` chain linked
through `right` children. -/
theorem vardeclEntries_chain : ∀ (fuel : Nat) (p : SpnParser) (t : AST) (p' : SpnParser),
    run fuel .vardeclEntriesR p = (some t, p') →
    ∃ e es, t = varChain e es := by
  intro fuel
  induction fuel with
  | zero => intro p t p' h; simp [run] at h
  | succ n ih =>
    intro p t p' h
    simp only [run] at h
    match ha : spn_accept p .ident with
    | (ok, p1) =>
      rw [ha] at h
      cases ok with
      | false => simp at h
      | true =>
        simp only [if_true] at h
        match hA : spn_accept p1 .assign with
        | (okA, p2) =>
          rw [hA] at h
          cases okA with
          | false =>
            simp only [Bool.false_eq_true, if_false, if_true] at h
            match hc : spn_accept p2 .comma with
            | (okC, p3) =>
              rw [hc] at h
              cases okC with
              | false =>
                simp only [Bool.false_eq_true, if_false, Prod.mk.injEq, Option.some.injEq] at h
                exact ⟨(p.curtok.val.asStr, AST.null, p2.lineno), [], h.1.symm⟩
              | true =>
                simp only [if_true] at h
                match hr : run n .vardeclEntriesR p3 with
                | (none, p4) => rw [hr] at h; simp at h
                | (some restd, p4) =>
                  rw [hr] at h
                  simp only [Prod.mk.injEq, Option.some.injEq] at h
                  obtain ⟨e, es, hl⟩ := ih _ _ _ hr
                  refine ⟨(p.curtok.val.asStr, AST.null, p2.lineno), e :: es, ?_⟩
                  rw [← h.1, hl]
                  rfl
          | true =>
            simp only [if_true] at h
            match he : run n .exprR p2 with
            | (none, p3) => rw [he] at h; simp at h
            | (some e0, p3) =>
              rw [he] at h
              simp only [if_true] at h
              match hc : spn_accept p3 .comma with
              | (okC, p4) =>
                rw [hc] at h
                cases okC with
                | false =>
                  simp only [Bool.false_eq_true, if_false, Prod.mk.injEq, Option.some.injEq] at h
                  exact ⟨(p.curtok.val.asStr, e0, p3.lineno), [], h.1.symm⟩
                | true =>
                  simp only [if_true] at h
                  match hr : run n .vardeclEntriesR p4 with
                  | (none, p5) => rw [hr] at h; simp at h
                  | (some restd, p5) =>
                    rw [hr] at h
                    simp only [Prod.mk.injEq, Option.some.injEq] at h
                    obtain ⟨e, es, hl⟩ := ih _ _ _ hr
                    refine ⟨(p.curtok.val.asStr, e0, p3.lineno), e :: es, ?_⟩
                    rw [← h.1, hl]
                    rfl

/-- The `Program` shape that C2's words predict for an input of three empty
statements: a right-leaning `Compound` spine whose top node has been
rewritten to `Program`, i.e. the first statement in `left` and the spine
of the two later statements in `right`. -/
def rightSpineEmpty3 (t : AST) : Bool :=
  match t with
  | .mk .program _ (.mk .empty _ .null .null _ _)
      (.mk .compound _ (.mk .empty _ .null .null _ _) (.mk .empty _ .null .null _ _) _ _)
      _ _ => true
  | _ => false

/-- C2, counterexample: on the three-statement input `;;;` the parser
produces `Program(left = Compound(Empty, Empty), right = Empty)` — a
left-leaning spine (the accumulated list in `left`, the newest statement in
`right`), not the right-leaning spine the claim describes. -/
theorem claim_C2_counterexample :
    (spn_parser_parse 300 spn_parser_new
        [tk .semicolon 1, tk .semicolon 1, tk .semicolon 1]).1
      = some (binNode .program 1
          (binNode .compound 1 (spn_ast_new .empty 1) (spn_ast_new .empty 1))
          (spn_ast_new .empty 1))
    ∧ rightSpineEmpty3 (binNode .program 1
          (binNode .compound 1 (spn_ast_new .empty 1) (spn_ast_new .empty 1))
          (spn_ast_new .empty 1)) = false :=
  ⟨rfl, rfl⟩

/-- C2 (amended): the parser accumulates the statements of a program or
block into a left-leaning `Compound` spine: the loops are proved equal to
"collect the statements into a list and left-fold `Compound` over it"
(`progLoop_eq_list`, `stmtListLoop_eq_list`), and here the resulting
`Program`/`Block` node is pinned to the parser's own computations — the
first statement is the first `parse_stmt` result, the spine list is the
list the statement loop parses in source order, and the node either holds
a single statement in `left` of a fresh node or is the `Compound` spine
with its kind rewritten in place (`flatten_wrap`); an empty block instead
collapses to `Empty`. -/
theorem claim_C2_amended :
    (∀ (fuel : Nat) (p : SpnParser) (t : AST) (p' : SpnParser),
        parse_program_nonempty (fuel + 1) p = (some t, p') →
        ∃ s1 p1 l,
          run fuel (.stmtR true) p = (some s1, p1)
          ∧ stmtLoopList fuel p1 = (some l, p')
          ∧ t = flatten_wrap .program p'.lineno (spineFold .compound s1 l))
    ∧ (∀ (fuel : Nat) (p : SpnParser) (t : AST) (p' : SpnParser),
        parse_block (fuel + 1 + 1) p = (some t, p') →
        t = spn_ast_new .empty p'.lineno
        ∨ ∃ q0 s1 q1 l p3,
            spn_accept p .lbrace = (true, q0)
            ∧ spn_accept q0 .rbrace = (false, q0)
            ∧ run fuel (.stmtR false) q0 = (some s1, q1)
            ∧ stmtListLoopList fuel q1 = (some l, p3)
            ∧ spn_accept p3 .rbrace = (true, p')
            ∧ t = flatten_wrap .block p'.lineno (spineFold .compound s1 l)) := by
  constructor
  · intro fuel p t p' h
    simp only [parse_program_nonempty, run] at h
    match hs : run fuel (.stmtR true) p with
    | (none, p1) => simp [hs] at h
    | (some sub, p1) =>
      simp only [hs] at h
      rw [progLoop_eq_list] at h
      match hl : stmtLoopList fuel p1 with
      | (none, p2) => simp [hl] at h
      | (some l, p2) =>
        simp only [hl] at h
        by_cases hc : (spineFold .compound sub l).node = NodeKind.compound
        · rw [if_pos hc] at h
          simp only [Prod.mk.injEq, Option.some.injEq] at h
          obtain ⟨h1, h2⟩ := h
          subst h2
          exact ⟨sub, p1, l, rfl, hl, by simp only [flatten_wrap, if_pos hc]; exact h1.symm⟩
        · rw [if_neg hc] at h
          simp only [Prod.mk.injEq, Option.some.injEq] at h
          obtain ⟨h1, h2⟩ := h
          subst h2
          exact ⟨sub, p1, l, rfl, hl, by simp only [flatten_wrap, if_neg hc]; exact h1.symm⟩
  · intro fuel p t p' h
    simp only [parse_block, run] at h
    match hb : spn_accept p .lbrace with
    | (false, q0) => simp [hb] at h
    | (true, q0) =>
      simp only [hb, if_true] at h
      match hb2 : spn_accept q0 .rbrace with
      | (true, p2) =>
        simp only [hb2, if_true, Prod.mk.injEq, Option.some.injEq] at h
        obtain ⟨h1, h2⟩ := h
        subst h2
        exact Or.inl h1.symm
      | (false, p2) =>
        have hp2 : p2 = q0 := spn_accept_false _ _ _ hb2
        simp only [hb2, Bool.false_eq_true, if_false] at h
        rw [hp2] at h
        match hs : run fuel (.stmtR false) q0 with
        | (none, q1) => simp [hs] at h
        | (some s1, q1) =>
          simp only [hs] at h
          rw [stmtListLoop_eq_list] at h
          match hl : stmtListLoopList fuel q1 with
          | (none, p3) => simp [hl] at h
          | (some l, p3) =>
            simp only [hl] at h
            match hrb : spn_accept p3 .rbrace with
            | (false, p4) => simp [hrb] at h
            | (true, p4) =>
              simp only [hrb, if_true] at h
              by_cases hc : (spineFold .compound s1 l).node = NodeKind.compound
              · rw [if_pos hc] at h
                simp only [Prod.mk.injEq, Option.some.injEq] at h
                obtain ⟨h1, h2⟩ := h
                subst h2
                exact Or.inr ⟨q0, s1, q1, l, p3, rfl, hp2 ▸ hb2, hs, hl, hrb,
                  by simp only [flatten_wrap, if_pos hc]; exact h1.symm⟩
              · rw [if_neg hc] at h
                simp only [Prod.mk.injEq, Option.some.injEq] at h
                obtain ⟨h1, h2⟩ := h
                subst h2
                exact Or.inr ⟨q0, s1, q1, l, p3, rfl, hp2 ▸ hb2, hs, hl, hrb,
                  by simp only [flatten_wrap, if_neg hc]; exact h1.symm⟩

/-- C2, witness: the amended claim applied to the two-statement program
`;;` and to the block with two statements in braces. -/
theorem claim_C2_amended_witness :
    (∃ s1 p1 l,
        run 99 (.stmtR true) ⟨[tk .semicolon 1], tk .semicolon 1, 1, false, false, none⟩
          = (some s1, p1)
        ∧ stmtLoopList 99 p1 = (some l, ⟨[], ⟨.eofTok, .vNone, 1⟩, 1, true, false, none⟩)
        ∧ binNode .program 1 (spn_ast_new .empty 1) (spn_ast_new .empty 1)
            = flatten_wrap .program 1 (spineFold .compound s1 l))
    ∧ (binNode .block 1 (spn_ast_new .empty 1) (spn_ast_new .empty 1) = spn_ast_new .empty 1
       ∨ ∃ q0 s1 q1 l p3,
           spn_accept ⟨[tk .semicolon 1, tk .semicolon 1, tk .rbrace 1],
               tk .lbrace 1, 1, false, false, none⟩ .lbrace = (true, q0)
           ∧ spn_accept q0 .rbrace = (false, q0)
           ∧ run 98 (.stmtR false) q0 = (some s1, q1)
           ∧ stmtListLoopList 98 q1 = (some l, p3)
           ∧ spn_accept p3 .rbrace
               = (true, ⟨[], ⟨.eofTok, .vNone, 1⟩, 1, true, false, none⟩)
           ∧ binNode .block 1 (spn_ast_new .empty 1) (spn_ast_new .empty 1)
               = flatten_wrap .block 1 (spineFold .compound s1 l)) :=
  ⟨claim_C2_amended.1 99 ⟨[tk .semicolon 1], tk .semicolon 1, 1, false, false, none⟩
      (binNode .program 1 (spn_ast_new .empty 1) (spn_ast_new .empty 1))
      ⟨[], ⟨.eofTok, .vNone, 1⟩, 1, true, false, none⟩ rfl,
   claim_C2_amended.2 98
      ⟨[tk .semicolon 1, tk .semicolon 1, tk .rbrace 1], tk .lbrace 1, 1, false, false, none⟩
      (binNode .block 1 (spn_ast_new .empty 1) (spn_ast_new .empty 1))
      ⟨[], ⟨.eofTok, .vNone, 1⟩, 1, true, false, none⟩ rfl⟩

/-- The list of further formal-parameter names parsed by the comma loop of
`parse_decl_args`, in source order, each paired with the line recorded on
its node. -/
def declArgsLoopList : Nat → SpnParser → Option (List (Option String × Nat)) × SpnParser
  | 0, p => (none, p)
  | fuel + 1, p =>
    let (ok, p) := spn_accept p .comma
    if ok then
      let name := p.curtok.val.asStr
      let (oki, p) := spn_accept p .ident
      if oki then
        match declArgsLoopList fuel p with
        | (none, q) => (none, q)
        | (some l, q) => (some ((name, p.lineno) :: l), q)
      else (none, spn_parser_error p "expected identifier in function argument list")
    else (some [], p)

/-- The comma loop of `parse_decl_args` is exactly: parse the remaining
names into the list `declArgsLoopList` computes and hang their chain off
the `left` child of the current tail node. -/
theorem declArgsLoop_eq_list : ∀ (fuel : Nat) (node : AST) (p : SpnParser),
    run fuel (.declArgsLoopR node) p
      = (match declArgsLoopList fuel p with
         | (none, q) => (none, q)
         | (some l, q) => (some (declAppend node l), q)) := by
  intro fuel
  induction fuel with
  | zero => intro node p; rfl
  | succ n ih =>
    intro node p
    simp only [run, declArgsLoopList]
    match ha : spn_accept p .comma with
    | (false, p1) => simp only [ha, Bool.false_eq_true, if_false]; rfl
    | (true, p1) =>
      simp only [ha, if_true]
      match hi : spn_accept p1 .ident with
      | (false, p2) => simp only [hi, Bool.false_eq_true, if_false]
      | (true, p2) =>
        simp only [hi, if_true, ih]
        match hl : declArgsLoopList n p2 with
        | (none, q) => simp only [hl]
        | (some l, q) => simp only [hl, declAppend_fresh]; rfl

/-- The list of further actual arguments parsed by the comma loop of
`parse_call_args`, in source order with their link-node lines. -/
def callArgsLoopList : Nat → SpnParser → Option (List (AST × Nat)) × SpnParser
  | 0, p => (none, p)
  | fuel + 1, p =>
    let (ok, p) := spn_accept p .comma
    if ok then
      match run fuel .exprR p with
      | (none, q) => (none, q)
      | (some e, q) =>
        match callArgsLoopList fuel q with
        | (none, q') => (none, q')
        | (some l, q') => (some ((e, q.lineno) :: l), q')
    else (some [], p)

/-- The comma loop of `parse_call_args` is exactly a left fold of the
argument list it parses onto the accumulator as the head-growing `CallArgs`
spine. -/
theorem callArgsLoop_eq_list : ∀ (fuel : Nat) (ast : AST) (p : SpnParser),
    run fuel (.callArgsLoopR ast) p
      = (match callArgsLoopList fuel p with
         | (none, q) => (none, q)
         | (some l, q) => (some (spineFold .callargs ast l), q)) := by
  intro fuel
  induction fuel with
  | zero => intro ast p; rfl
  | succ n ih =>
    intro ast p
    simp only [run, callArgsLoopList]
    match ha : spn_accept p .comma with
    | (false, p1) => simp only [ha, Bool.false_eq_true, if_false]; rfl
    | (true, p1) =>
      simp only [ha, if_true]
      match he : run n .exprR p1 with
      | (none, q) => simp only [he]
      | (some e, q) =>
        simp only [he, ih]
        match hl : callArgsLoopList n q with
        | (none, q') => simp only [hl]
        | (some l, q') => simp only [hl]; rfl

/-- The list of declaration entries (name, initializer or `null`, node
line) parsed by the do-while loop of `parse_vardecl`, in source order,
split as head entry and tail list. -/
def vardeclEntriesList : Nat → SpnParser →
    Option ((Option String × AST × Nat) × List (Option String × AST × Nat)) × SpnParser
  | 0, p => (none, p)
  | fuel + 1, p =>
    let name := p.curtok.val.asStr
    let (ok, p) := spn_accept p .ident
    if ok then
      let (okA, p) := spn_accept p .assign
      let (expr, good, p) :=
        if okA then
          let (e, p) := run fuel .exprR p
          match e with
          | none => (AST.null, false, p)
          | some e => (e, true, p)
        else (AST.null, true, p)
      if good then
        let entry := (name, expr, p.lineno)
        let (okC, p) := spn_accept p .comma
        if okC then
          let (restd, p) := vardeclEntriesList fuel p
          match restd with
          | none => (none, p)
          | some restd => (some (entry, restd.1 :: restd.2), p)
        else (some (entry, []), p)
      else (none, p)
    else (none, spn_parser_error p "expected identifier in declaration")

/-- The do-while loop of `parse_vardecl` is exactly: parse the entries into
the list `vardeclEntriesList` computes and chain them through `right`
children (`varChain`). -/
theorem vardeclEntries_eq_list : ∀ (fuel : Nat) (p : SpnParser),
    run fuel .vardeclEntriesR p
      = (match vardeclEntriesList fuel p with
         | (none, q) => (none, q)
         | (some (e, es), q) => (some (varChain e es), q)) := by
  intro fuel
  induction fuel with
  | zero => intro p; rfl
  | succ n ih =>
    intro p
    simp only [run, vardeclEntriesList]
    match ha : spn_accept p .ident with
    | (false, p1) => simp only [ha, Bool.false_eq_true, if_false]
    | (true, p1) =>
      simp only [ha, if_true]
      match hA : spn_accept p1 .assign with
      | (false, p2) =>
        simp only [hA, Bool.false_eq_true, if_false, if_true]
        match hc : spn_accept p2 .comma with
        | (false, p3) => simp only [hc, Bool.false_eq_true, if_false]; rfl
        | (true, p3) =>
          simp only [hc, if_true, ih]
          match hr : vardeclEntriesList n p3 with
          | (none, p4) => simp only [hr]
          | (some (e, es), p4) => simp only [hr]; rfl
      | (true, p2) =>
        simp only [hA, if_true]
        match he : run n .exprR p2 with
        | (none, p3) => simp only [he, Bool.false_eq_true, if_false]
        | (some e0, p3) =>
          simp only [he, if_true]
          match hc : spn_accept p3 .comma with
          | (false, p4) => simp only [hc, Bool.false_eq_true, if_false]; rfl
          | (true, p4) =>
            simp only [hc, if_true, ih]
            match hr : vardeclEntriesList n p4 with
            | (none, p5) => simp only [hr]
            | (some (e, es), p5) => simp only [hr]; rfl

/-- The `DeclArgs` shape that C3's words predict for two formal parameters:
a chain whose links go through the `right` child (with `left` unused). -/
def declargsRightChain2 (t : AST) : Bool :=
  match t with
  | .mk .declargs _ .null (.mk .declargs _ _ _ _ _) _ _ => true
  | _ => false

/-- C3, counterexample: parsing `function f(a,b){}` yields a `DeclArgs`
list whose second node hangs off the `left` child of the first (`right`
stays absent), not a chain through `right` as claimed. -/
theorem claim_C3_counterexample :
    (spn_parser_parse 300 spn_parser_new
        [tk .tFunction 1, idk "f" 1, tk .lparen 1, idk "a" 1, tk .comma 1, idk "b" 1,
         tk .rparen 1, tk .lbrace 1, tk .rbrace 1]).1
      = some ((spn_ast_new .program 1).setLeft
          ((((spn_ast_new .funcstmt 1).setName (some "f")).setLeft
              (declChain (some "a", 1) [(some "b", 1)])).setRight (spn_ast_new .empty 1)))
    ∧ declargsRightChain2 (declChain (some "a", 1) [(some "b", 1)]) = false :=
  ⟨rfl, rfl⟩

/-- C3 (amended): a `DeclArgs` list with two or more formal parameters is a
singly-linked chain through the `left` child (one name per node, `right`
absent); a `VarDecl` list chains through `right` (name and optional
initializer in `left` at each node); a `CallArgs` list chains through
`left` with the head growing, the newest argument sitting as `right` of
the top node.  Conjuncts four to six additionally pin each chain to the
parser's own computations: the chain is exactly `declChain`/`varChain`/the
`CallArgs` spine over the list of names, entries or arguments that the
respective comma loop parses in source order
(`declArgsLoopList`/`vardeclEntriesList`/`callArgsLoopList`). -/
theorem claim_C3_amended :
    (∀ (fuel : Nat) (p : SpnParser) (t : AST) (p' : SpnParser),
        parse_decl_args fuel p = (some t, p') → ∃ e es, t = declChain e es)
    ∧ (∀ (fuel : Nat) (p : SpnParser) (t : AST) (p' : SpnParser),
        parse_vardecl fuel p = (some t, p') → ∃ e es, t = varChain e es)
    ∧ (∀ (fuel : Nat) (p : SpnParser) (t : AST) (p' : SpnParser),
        parse_call_args fuel p = (some t, p') →
        ∃ a ln l, t = spineFold .callargs ((spn_ast_new .callargs ln).setRight a) l)
    ∧ (∀ (fuel : Nat) (p : SpnParser) (t : AST) (p' : SpnParser),
        parse_decl_args (fuel + 1) p = (some t, p') →
        ∃ p1 l,
          spn_accept p .ident = (true, p1)
          ∧ declArgsLoopList fuel p1 = (some l, p')
          ∧ t = declChain (p.curtok.val.asStr, p1.lineno) l)
    ∧ (∀ (fuel : Nat) (p : SpnParser) (t : AST) (p' : SpnParser),
        parse_vardecl (fuel + 1) p = (some t, p') →
        ∃ b p1 e es p2,
          spn_lex p = (b, p1)
          ∧ vardeclEntriesList fuel p1 = (some (e, es), p2)
          ∧ spn_accept p2 .semicolon = (true, p')
          ∧ t = varChain e es)
    ∧ (∀ (fuel : Nat) (p : SpnParser) (t : AST) (p' : SpnParser),
        parse_call_args (fuel + 1) p = (some t, p') →
        ∃ e0 p1 l,
          run fuel .exprR p = (some e0, p1)
          ∧ callArgsLoopList fuel p1 = (some l, p')
          ∧ t = spineFold .callargs ((spn_ast_new .callargs p1.lineno).setRight e0) l) := by
  refine ⟨?_, ?_, ?_, ?_, ?_, ?_⟩
  · intro fuel p t p' h
    cases fuel with
    | zero => simp [parse_decl_args, run] at h
    | succ n =>
      simp only [parse_decl_args, run] at h
      match hi : spn_accept p .ident with
      | (false, p1) => simp [hi] at h
      | (true, p1) =>
        simp only [hi, if_true] at h
        obtain ⟨l, hl⟩ := declArgsLoop_chain _ _ _ _ _ h
        exact ⟨(p.curtok.val.asStr, p1.lineno), l, by rw [hl, declAppend_fresh]⟩
  · intro fuel p t p' h
    cases fuel with
    | zero => simp [parse_vardecl, run] at h
    | succ n =>
      simp only [parse_vardecl, run] at h
      match hlx : spn_lex p with
      | (b, p1) =>
        simp only [hlx] at h
        match he : run n .vardeclEntriesR p1 with
        | (none, p2) => simp [he] at h
        | (some ast, p2) =>
          simp only [he] at h
          match hs : spn_accept p2 .semicolon with
          | (false, p3) => simp [hs] at h
          | (true, p3) =>
            simp only [hs, if_true, Prod.mk.injEq, Option.some.injEq] at h
            obtain ⟨e, es, hv⟩ := vardeclEntries_chain _ _ _ _ he
            exact ⟨e, es, by rw [← h.1, hv]⟩
  · intro fuel p t p' h
    cases fuel with
    | zero => simp [parse_call_args, run] at h
    | succ n =>
      simp only [parse_call_args, run] at h
      match he : run n .exprR p with
      | (none, p1) => simp [he] at h
      | (some e0, p1) =>
        simp only [he] at h
        obtain ⟨l, hl⟩ := callArgsLoop_spine _ _ _ _ _ h
        exact ⟨e0, p1.lineno, l, hl⟩
  · intro fuel p t p' h
    simp only [parse_decl_args, run] at h
    match hi : spn_accept p .ident with
    | (false, p1) => simp [hi] at h
    | (true, p1) =>
      simp only [hi, if_true] at h
      rw [declArgsLoop_eq_list] at h
      match hl : declArgsLoopList fuel p1 with
      | (none, q) => simp [hl] at h
      | (some l, q) =>
        simp only [hl, Prod.mk.injEq, Option.some.injEq] at h
        obtain ⟨h1, h2⟩ := h
        subst h2
        exact ⟨p1, l, rfl, hl, by rw [← h1, declAppend_fresh]⟩
  · intro fuel p t p' h
    simp only [parse_vardecl, run] at h
    match hlx : spn_lex p with
    | (b, p1) =>
      simp only [hlx] at h
      rw [vardeclEntries_eq_list] at h
      match hv : vardeclEntriesList fuel p1 with
      | (none, q) => simp [hv] at h
      | (some (e, es), q) =>
        simp only [hv] at h
        match hs : spn_accept q .semicolon with
        | (false, q2) => simp [hs] at h
        | (true, q2) =>
          simp only [hs, if_true, Prod.mk.injEq, Option.some.injEq] at h
          obtain ⟨h1, h2⟩ := h
          subst h2
          exact ⟨b, p1, e, es, q, rfl, hv, hs, h1.symm⟩
  · intro fuel p t p' h
    simp only [parse_call_args, run] at h
    match he : run fuel .exprR p with
    | (none, p1) => simp [he] at h
    | (some e0, p1) =>
      simp only [he] at h
      rw [callArgsLoop_eq_list] at h
      match hl : callArgsLoopList fuel p1 with
      | (none, q) => simp [hl] at h
      | (some l, q) =>
        simp only [hl, Prod.mk.injEq, Option.some.injEq] at h
        obtain ⟨h1, h2⟩ := h
        subst h2
        exact ⟨e0, p1, l, rfl, hl, h1.symm⟩

/-- C3, witness: the amended claim applied to the two-parameter list
`a, b)`, the declaration `var x = a, y ;` and the two-argument list
`a, b)`, both in the chain-shape form and in the computation-pinned
form. -/
theorem claim_C3_amended_witness :
    (∃ e es, declChain (some "a", 1) [(some "b", 1)] = declChain e es)
    ∧ (∃ e es, varChain (some "x", identNode "a" 1, 1) [(some "y", AST.null, 1)]
        = varChain e es)
    ∧ (∃ a ln l, spineFold .callargs ((spn_ast_new .callargs 1).setRight (identNode "a" 1))
          [(identNode "b" 1, 1)]
        = spineFold .callargs ((spn_ast_new .callargs ln).setRight a) l)
    ∧ (∃ p1 l,
        spn_accept ⟨[tk .comma 1, idk "b" 1, tk .rparen 1], idk "a" 1, 1, false, false, none⟩
            .ident = (true, p1)
        ∧ declArgsLoopList 99 p1
            = (some l, ⟨[], ⟨.rparen, .vNone, 1⟩, 1, false, false, none⟩)
        ∧ declChain (some "a", 1) [(some "b", 1)] = declChain (some "a", p1.lineno) l)
    ∧ (∃ b p1 e es p2,
        spn_lex ⟨[idk "x" 1, tk .assign 1, idk "a" 1, tk .comma 1, idk "y" 1, tk .semicolon 1],
            tk .tVar 1, 1, false, false, none⟩ = (b, p1)
        ∧ vardeclEntriesList 99 p1 = (some (e, es), p2)
        ∧ spn_accept p2 .semicolon
            = (true, ⟨[], ⟨.eofTok, .vNone, 1⟩, 1, true, false, none⟩)
        ∧ varChain (some "x", identNode "a" 1, 1) [(some "y", AST.null, 1)] = varChain e es)
    ∧ (∃ e0 p1 l,
        run 99 .exprR ⟨[tk .comma 1, idk "b" 1, tk .rparen 1], idk "a" 1, 1, false, false, none⟩
          = (some e0, p1)
        ∧ callArgsLoopList 99 p1
            = (some l, ⟨[], ⟨.rparen, .vNone, 1⟩, 1, false, false, none⟩)
        ∧ spineFold .callargs ((spn_ast_new .callargs 1).setRight (identNode "a" 1))
              [(identNode "b" 1, 1)]
            = spineFold .callargs ((spn_ast_new .callargs p1.lineno).setRight e0) l) :=
  ⟨claim_C3_amended.1 100 ⟨[tk .comma 1, idk "b" 1, tk .rparen 1], idk "a" 1, 1, false, false, none⟩
      (declChain (some "a", 1) [(some "b", 1)])
      ⟨[], ⟨.rparen, .vNone, 1⟩, 1, false, false, none⟩ rfl,
   claim_C3_amended.2.1 100
      ⟨[idk "x" 1, tk .assign 1, idk "a" 1, tk .comma 1, idk "y" 1, tk .semicolon 1],
       tk .tVar 1, 1, false, false, none⟩
      (varChain (some "x", identNode "a" 1, 1) [(some "y", AST.null, 1)])
      ⟨[], ⟨.eofTok, .vNone, 1⟩, 1, true, false, none⟩ rfl,
   claim_C3_amended.2.2.1 100 ⟨[tk .comma 1, idk "b" 1, tk .rparen 1], idk "a" 1, 1, false, false, none⟩
      (spineFold .callargs ((spn_ast_new .callargs 1).setRight (identNode "a" 1))
        [(identNode "b" 1, 1)])
      ⟨[], ⟨.rparen, .vNone, 1⟩, 1, false, false, none⟩ rfl,
   claim_C3_amended.2.2.2.1 99
      ⟨[tk .comma 1, idk "b" 1, tk .rparen 1], idk "a" 1, 1, false, false, none⟩
      (declChain (some "a", 1) [(some "b", 1)])
      ⟨[], ⟨.rparen, .vNone, 1⟩, 1, false, false, none⟩ rfl,
   claim_C3_amended.2.2.2.2.1 99
      ⟨[idk "x" 1, tk .assign 1, idk "a" 1, tk .comma 1, idk "y" 1, tk .semicolon 1],
       tk .tVar 1, 1, false, false, none⟩
      (varChain (some "x", identNode "a" 1, 1) [(some "y", AST.null, 1)])
      ⟨[], ⟨.eofTok, .vNone, 1⟩, 1, true, false, none⟩ rfl,
   claim_C3_amended.2.2.2.2.2 99
      ⟨[tk .comma 1, idk "b" 1, tk .rparen 1], idk "a" 1, 1, false, false, none⟩
      (spineFold .callargs ((spn_ast_new .callargs 1).setRight (identNode "a" 1))
        [(identNode "b" 1, 1)])
      ⟨[], ⟨.rparen, .vNone, 1⟩, 1, false, false, none⟩ rfl⟩

/-- C1: the parser groups operators by the documented precedence and
associativity: `a + b * c` parses as `Add(Ident a, Mul(Ident b, Ident c))`,
`a * b + c` as `Add(Mul(a,b), c)`, `a = b = c` as `Assign(a, Assign(b, c))`
(assignment is right-associative), and `a - b - c` as `Sub(Sub(a,b), c)`
(additive operators are left-associative). -/
theorem claim_C1 :
    (spn_parser_parse 300 spn_parser_new
        [idk "a" 1, tk .plus 1, idk "b" 1, tk .mul 1, idk "c" 1, tk .semicolon 1]).1
      = some ((spn_ast_new .program 1).setLeft
          (binNode .add 1 (identNode "a" 1)
            (binNode .mul 1 (identNode "b" 1) (identNode "c" 1))))
    ∧ (spn_parser_parse 300 spn_parser_new
        [idk "a" 1, tk .mul 1, idk "b" 1, tk .plus 1, idk "c" 1, tk .semicolon 1]).1
      = some ((spn_ast_new .program 1).setLeft
          (binNode .add 1
            (binNode .mul 1 (identNode "a" 1) (identNode "b" 1)) (identNode "c" 1)))
    ∧ (spn_parser_parse 300 spn_parser_new
        [idk "a" 1, tk .assign 1, idk "b" 1, tk .assign 1, idk "c" 1, tk .semicolon 1]).1
      = some ((spn_ast_new .program 1).setLeft
          (binNode .assign 1 (identNode "a" 1)
            (binNode .assign 1 (identNode "b" 1) (identNode "c" 1))))
    ∧ (spn_parser_parse 300 spn_parser_new
        [idk "a" 1, tk .minus 1, idk "b" 1, tk .minus 1, idk "c" 1, tk .semicolon 1]).1
      = some ((spn_ast_new .program 1).setLeft
          (binNode .sub 1
            (binNode .sub 1 (identNode "a" 1) (identNode "b" 1)) (identNode "c" 1))) :=
  ⟨rfl, rfl, rfl, rfl⟩

/-- C4: the conditional expression nests into its false branch —
`a ? b : c ? d : e` parses as
`CondExpr(a, Branches(b, CondExpr(c, Branches(d, e))))`; the true branch is
a full expression, so it may contain an assignment (`a ? b = c : d`); and a
missing `:` makes the parse fail with an error. -/
theorem claim_C4 :
    (spn_parser_parse 300 spn_parser_new
        [idk "a" 1, tk .qmark 1, idk "b" 1, tk .colon 1, idk "c" 1, tk .qmark 1,
         idk "d" 1, tk .colon 1, idk "e" 1, tk .semicolon 1]).1
      = some ((spn_ast_new .program 1).setLeft
          (binNode .condexpr 1 (identNode "a" 1)
            (binNode .branches 1 (identNode "b" 1)
              (binNode .condexpr 1 (identNode "c" 1)
                (binNode .branches 1 (identNode "d" 1) (identNode "e" 1))))))
    ∧ (spn_parser_parse 300 spn_parser_new
        [idk "a" 1, tk .qmark 1, idk "b" 1, tk .assign 1, idk "c" 1, tk .colon 1,
         idk "d" 1, tk .semicolon 1]).1
      = some ((spn_ast_new .program 1).setLeft
          (binNode .condexpr 1 (identNode "a" 1)
            (binNode .branches 1
              (binNode .assign 1 (identNode "b" 1) (identNode "c" 1))
              (identNode "d" 1))))
    ∧ spn_parser_parse 300 spn_parser_new
        [idk "a" 1, tk .qmark 1, idk "b" 1, tk .semicolon 1]
      = (none, ⟨[], tk .semicolon 1, 1, false, true,
          some "Sparkling: syntax error near line 1: expected : in conditional expression"⟩) :=
  ⟨rfl, rfl, rfl⟩

/-- Failure and success guarantees of `parse_program_finish`: a null result
leaves the error or eof flag set, a non-null result implies eof. -/
theorem finish_cases : ∀ (tree : Option AST) (q : SpnParser) (r : Option AST) (s : SpnParser),
    parse_program_finish tree q = (r, s) →
    (r = none → s.error = true ∨ s.eof = true)
    ∧ (∀ t, r = some t → s.eof = true) := by
  intro tree q r s h
  simp only [parse_program_finish] at h
  by_cases hq : q.eof = true
  · rw [if_pos hq] at h
    obtain ⟨h1, h2⟩ := Prod.mk.injEq .. ▸ h
    subst h2
    exact ⟨fun _ => Or.inr hq, fun t ht => hq⟩
  · rw [if_neg hq] at h
    by_cases he : q.error = true
    · rw [if_pos he] at h
      obtain ⟨h1, h2⟩ := Prod.mk.injEq .. ▸ h
      subst h2
      exact ⟨fun _ => Or.inl he, fun t ht => by rw [← h1] at ht; cases ht⟩
    · rw [if_neg he] at h
      obtain ⟨h1, h2⟩ := Prod.mk.injEq .. ▸ h
      subst h2
      refine ⟨fun _ => Or.inl rfl, fun t ht => by rw [← h1] at ht; cases ht⟩

/-- C5, counterexample: on the input consisting of the lone keyword `if`,
the parse fails (returns `none`) yet the error flag is not set — the
failure comes from `parse_if` hitting end of input in its initial
`spn_lex`, which sets only `eof`. -/
theorem claim_C5_counterexample :
    (spn_parser_parse 300 spn_parser_new [tk .tIf 1]).1 = none
    ∧ (spn_parser_parse 300 spn_parser_new [tk .tIf 1]).2.error = false :=
  ⟨rfl, rfl⟩

/-- C5 (amended): if parsing fails (`spn_parser_parse` returns `none`) then
the parser state's error flag is set or the lexer hit end of input (the
`eof` flag is set: a premature EOF inside a statement fails without
recording an error); and if parsing succeeds the lexer has consumed all
tokens (`eof` is set). -/
theorem claim_C5_amended : ∀ (fuel : Nat) (p : SpnParser) (src : List Token)
    (r : Option AST) (s : SpnParser),
    spn_parser_parse (fuel+1) p src = (r, s) →
    (r = none → s.error = true ∨ s.eof = true)
    ∧ (∀ t, r = some t → s.eof = true) := by
  intro fuel p src r s h
  simp only [spn_parser_parse, run, spn_lex] at h
  cases src with
  | nil =>
    simp only at h
    obtain ⟨h1, h2⟩ := Prod.mk.injEq .. ▸ h
    subst h2
    refine ⟨fun hr => Or.inr rfl, fun t ht => rfl⟩
  | cons a as =>
    simp only at h
    match hrun : run fuel .programNonemptyR
        { p with rest := as, curtok := a, lineno := a.line, eof := false, error := false } with
    | (tree, p2) =>
      rw [hrun] at h
      exact finish_cases _ _ _ _ h

/-- C5, witness: the amended claim applied to the failing input `if`. -/
theorem claim_C5_amended_witness :
    (spn_parser_parse 300 spn_parser_new [tk .tIf 1]).2.error = true
    ∨ (spn_parser_parse 300 spn_parser_new [tk .tIf 1]).2.eof = true :=
  (claim_C5_amended 299 spn_parser_new [tk .tIf 1] none
    ⟨[], ⟨.eofTok, .vNone, 1⟩, 1, true, false, none⟩ rfl).1 rfl

/-- C6: when the statements parsed but the lexer is not at EOF, the tail of
`spn_parser_parse` (`parse_program_finish`) drops the accumulated tree and
returns `none`; it records the error "garbage after input" unless an error
was already recorded, in which case the state is left untouched. -/
theorem claim_C6 : ∀ (t : AST) (q : SpnParser), q.eof = false →
    (parse_program_finish (some t) q).1 = none
    ∧ (q.error = false →
        (parse_program_finish (some t) q).2.error = true
        ∧ (parse_program_finish (some t) q).2.errmsg
            = some ("Sparkling: syntax error near line " ++ toString q.lineno
                    ++ ": " ++ "garbage after input"))
    ∧ (q.error = true → (parse_program_finish (some t) q).2 = q) := by
  intro t q hq
  refine ⟨?_, fun he0 => ?_, fun he1 => ?_⟩
  · simp only [parse_program_finish, hq, Bool.false_eq_true, if_false]
    by_cases he : q.error = true
    · rw [if_pos he]
    · rw [if_neg he]
  · simp only [parse_program_finish, hq, he0, Bool.false_eq_true, if_false]
    exact ⟨rfl, rfl⟩
  · simp only [parse_program_finish, hq, he1, Bool.false_eq_true, if_false, if_true]

/-- C6, witness: the garbage-after-input behavior at a concrete state with
a leftover token on line 3 and no prior error. -/
theorem claim_C6_witness :
    (parse_program_finish (some (spn_ast_new .empty 1))
        ⟨[], tk .semicolon 3, 3, false, false, none⟩).1 = none
    ∧ ((⟨[], tk .semicolon 3, 3, false, false, none⟩ : SpnParser).error = false →
        (parse_program_finish (some (spn_ast_new .empty 1))
            ⟨[], tk .semicolon 3, 3, false, false, none⟩).2.error = true
        ∧ (parse_program_finish (some (spn_ast_new .empty 1))
            ⟨[], tk .semicolon 3, 3, false, false, none⟩).2.errmsg
            = some ("Sparkling: syntax error near line "
                    ++ toString (⟨[], tk .semicolon 3, 3, false, false, none⟩ : SpnParser).lineno
                    ++ ": " ++ "garbage after input"))
    ∧ ((⟨[], tk .semicolon 3, 3, false, false, none⟩ : SpnParser).error = true →
        (parse_program_finish (some (spn_ast_new .empty 1))
            ⟨[], tk .semicolon 3, 3, false, false, none⟩).2
          = ⟨[], tk .semicolon 3, 3, false, false, none⟩) :=
  claim_C6 (spn_ast_new .empty 1) ⟨[], tk .semicolon 3, 3, false, false, none⟩ rfl

/-- C7: for the empty input (no token at all), `spn_parser_parse` returns a
`Program` node with no children and does not set the error flag — for any
fuel and any prior parser state. -/
theorem claim_C7 : ∀ (fuel : Nat) (p : SpnParser),
    (spn_parser_parse (fuel+1) p []).1 = some (spn_ast_new .program 1)
    ∧ (spn_parser_parse (fuel+1) p []).2.error = false :=
  fun fuel p => ⟨rfl, rfl⟩

/-- C8: the `.` and `->` postfix operators are interchangeable — the
postfix iteration behaves identically on a current token `.` or `->`
(whatever the payloads), both building a `MemberOf` node with the accessed
expression in `left` and the member `Ident` in `right`; `a.b` and `a->b`
produce identical results; and a non-identifier after the operator is an
error. -/
theorem claim_C8 :
    (∀ (fuel : Nat) (a : AST) (v w : Val) (ln lineno : Nat) (rest : List Token)
        (eofb errb : Bool) (em : Option String),
        postfix_loop (fuel+1) a ⟨rest, ⟨.dot, v, ln⟩, lineno, eofb, errb, em⟩
          = postfix_loop (fuel+1) a ⟨rest, ⟨.arrow, w, ln⟩, lineno, eofb, errb, em⟩)
    ∧ spn_parser_parse 300 spn_parser_new [idk "a" 1, tk .dot 1, idk "b" 1, tk .semicolon 1]
        = spn_parser_parse 300 spn_parser_new [idk "a" 1, tk .arrow 1, idk "b" 1, tk .semicolon 1]
    ∧ (spn_parser_parse 300 spn_parser_new [idk "a" 1, tk .dot 1, idk "b" 1, tk .semicolon 1]).1
        = some ((spn_ast_new .program 1).setLeft
            (binNode .memberof 1 (identNode "a" 1) (identNode "b" 1)))
    ∧ spn_parser_parse 300 spn_parser_new
        [idk "a" 1, tk .dot 1, ⟨.intLit, .vInt 5, 1⟩, tk .semicolon 1]
      = (none, ⟨[tk .semicolon 1], ⟨.intLit, .vInt 5, 1⟩, 1, false, true,
          some "Sparkling: syntax error near line 1: expected identifier after . or -> operator"⟩) :=
  ⟨fun fuel a v w ln lineno rest eofb errb em => rfl, rfl, rfl, rfl⟩

/-- C9, counterexample: in `a +` (line 1) `b` (line 2) `;` (line 2), the
`Add` node records line 2, the lexer's current line when the node is
created after the right operand — not line 1, the line of the `+` operator
token as the claim states. -/
theorem claim_C9_counterexample :
    (spn_parser_parse 300 spn_parser_new
        [idk "a" 1, tk .plus 1, idk "b" 2, tk .semicolon 2]).1
      = some ((spn_ast_new .program 2).setLeft
          (binNode .add 2 (identNode "a" 1) (identNode "b" 2)))
    ∧ (binNode .add 2 (identNode "a" 1) (identNode "b" 2)).line ≠ 1 :=
  ⟨rfl, by decide⟩

/-- C9 (amended): a term node (`Ident`, `Literal`) records the line of its
own token, but a binary operator node records the parser's line counter at
the moment the node is constructed — after the right operand has been
parsed — which can exceed the operator token's line when the right operand
extends over later lines: one left-associative iteration rewrites to the
loop with a node carrying `p2.lineno`, the line reached after the right
operand. -/
theorem claim_C9_amended :
    (∀ (fuel : Nat) (ops : List (Tok × NodeKind)) (sub : Req) (ast : AST)
        (p p1 p2 : SpnParser) (nk : NodeKind) (right : AST),
        spn_accept_multi p ops = (some nk, p1) →
        run fuel sub p1 = (some right, p2) →
        run (fuel+1) (.binLeftLoopR ops sub ast) p
          = run fuel (.binLeftLoopR ops sub
              (((spn_ast_new nk p2.lineno).setLeft ast).setRight right)) p2)
    ∧ (spn_parser_parse 300 spn_parser_new
        [idk "a" 1, tk .plus 1, idk "b" 2, tk .semicolon 2]).1
      = some ((spn_ast_new .program 2).setLeft
          (binNode .add 2 (identNode "a" 1) (identNode "b" 2))) := by
  constructor
  · intro fuel ops sub ast p p1 p2 nk right ha hr
    simp only [run, ha, hr]
  · rfl

/-- C9, witness: one iteration of the additive level on `a + b` with `b` on
line 2 builds the `Add` node with line 2. -/
theorem claim_C9_amended_witness :
    run 61 (.binLeftLoopR additiveOps multiplicativeReq (identNode "a" 1))
        ⟨[idk "b" 2, tk .semicolon 2], tk .plus 1, 1, false, false, none⟩
      = run 60 (.binLeftLoopR additiveOps multiplicativeReq
          (binNode .add 2 (identNode "a" 1) (identNode "b" 2)))
        ⟨[], tk .semicolon 2, 2, false, false, none⟩ :=
  claim_C9_amended.1 60 additiveOps multiplicativeReq (identNode "a" 1)
    ⟨[idk "b" 2, tk .semicolon 2], tk .plus 1, 1, false, false, none⟩
    ⟨[tk .semicolon 2], idk "b" 2, 2, false, false, none⟩
    ⟨[], tk .semicolon 2, 2, false, false, none⟩
    .add (identNode "b" 2) rfl rfl

/-- C10: `spn_parser_parse` resets the cursor, the `eof` and `error` flags
and the line counter, but not the retained error message: a failed parse of
`}` records "unexpected token", and a subsequent successful parse of `;`
with the same parser object returns a tree with the error flag clear while
`errmsg` still holds the earlier message. -/
theorem claim_C10 :
    (spn_parser_parse 300 spn_parser_new [tk .rbrace 1]).1 = none
    ∧ (spn_parser_parse 300 spn_parser_new [tk .rbrace 1]).2.error = true
    ∧ (spn_parser_parse 300 spn_parser_new [tk .rbrace 1]).2.errmsg
        = some "Sparkling: syntax error near line 1: unexpected token"
    ∧ spn_parser_parse 300 (spn_parser_parse 300 spn_parser_new [tk .rbrace 1]).2 [tk .semicolon 1]
        = (some ((spn_ast_new .program 1).setLeft (spn_ast_new .empty 1)),
           ⟨[], ⟨.eofTok, .vNone, 1⟩, 1, true, false,
            some "Sparkling: syntax error near line 1: unexpected token"⟩) :=
  ⟨rfl, rfl, rfl, rfl⟩

end Sparkling
